import Mathlib

/-!
Verification of the auth-middleware core: the JWT-payload decoding algorithm
(`JwtParserService.parseToken`), the role-authorization guards
(`RequireRolesGuard`, `RequireAllRolesGuard`), and the request authenticator
(`AuthGuard`) together with the claims accessors.

The definitions below are a shallow embedding of the TypeScript sources.
JavaScript strings are modelled as Lean `String`/`List Char`, JavaScript's
`undefined` as `Option.none`, thrown `HttpException`s as the `Except.error`
side of `Except`, and the JSON values produced by `JSON.parse` as the `Json`
inductive.  All functions are executable and defined by structural recursion
so that concrete runs reduce inside the kernel.
-/

/-- JSON values, as produced by `JSON.parse`.  Numbers are modelled as
integers (the payload fields the middleware reads — `exp`, `iat` — are Unix
seconds).  An object keeps its fields as an ordered association list; a
duplicated key is resolved by `getField` below with JavaScript's
last-assignment-wins rule. -/
inductive Json where
  | null
  | bool (b : Bool)
  | num (n : Int)
  | str (s : String)
  | arr (elems : List Json)
  | obj (fields : List (String × Json))

/-- JavaScript property read `o[k]` on an object built by `JSON.parse`:
the last occurrence of a duplicated key wins; a missing key is `undefined`
(`none`). -/
def getField (fields : List (String × Json)) (k : String) : Option Json :=
  fields.foldl (fun acc kv => if kv.1 = k then some kv.2 else acc) none

/-- Whitespace skipped by `JSON.parse` between tokens. -/
def isJsonWs (c : Char) : Bool :=
  c = ' ' || c = '\t' || c = '\n' || c = '\r'

/-- Drop leading JSON whitespace. -/
def skipWs (cs : List Char) : List Char :=
  cs.dropWhile isJsonWs

/-- Value of a hexadecimal digit. -/
def hexDigit (c : Char) : Option Nat :=
  if '0' ≤ c ∧ c ≤ '9' then some (c.toNat - 48)
  else if 'a' ≤ c ∧ c ≤ 'f' then some (c.toNat - 97 + 10)
  else if 'A' ≤ c ∧ c ≤ 'F' then some (c.toNat - 65 + 10)
  else none

/-- Single-character JSON string escapes. -/
def escChar (c : Char) : Option Char :=
  if c = '"' then some '"'
  else if c = '\\' then some '\\'
  else if c = '/' then some '/'
  else if c = 'b' then some (Char.ofNat 8)
  else if c = 'f' then some (Char.ofNat 12)
  else if c = 'n' then some '\n'
  else if c = 'r' then some (Char.ofNat 13)
  else if c = 't' then some '\t'
  else none

/-- Body of a JSON string literal, after the opening quote: returns the
decoded characters and the input remaining after the closing quote. -/
def parseStrChars : List Char → Option (List Char × List Char)
  | [] => none
  | c :: rest =>
    if c = '"' then some ([], rest)
    else if c = '\\' then
      match rest with
      | [] => none
      | e :: rest2 =>
        if e = 'u' then
          match rest2 with
          | h1 :: h2 :: h3 :: h4 :: rest3 =>
            match hexDigit h1, hexDigit h2, hexDigit h3, hexDigit h4 with
            | some a, some b, some c3, some d =>
              let n := a * 4096 + b * 256 + c3 * 16 + d
              if 0xD800 ≤ n ∧ n < 0xE000 then none
              else
                match parseStrChars rest3 with
                | some (cs, r) => some (Char.ofNat n :: cs, r)
                | none => none
            | _, _, _, _ => none
          | _ => none
        else
          match escChar e with
          | some ec =>
            match parseStrChars rest2 with
            | some (cs, r) => some (ec :: cs, r)
            | none => none
          | none => none
    else if c.toNat < 0x20 then none
    else
      match parseStrChars rest with
      | some (cs, r) => some (c :: cs, r)
      | none => none

/-- Decimal digit run, accumulating left to right. -/
def digitsAux (acc : Nat) : List Char → Nat × List Char
  | c :: rest =>
    if c.isDigit then digitsAux (acc * 10 + (c.toNat - 48)) rest
    else (acc, c :: rest)
  | [] => (acc, [])

/-- JSON numeric literal.  The model covers the integer literals (optional
leading minus, no leading zeros); the middleware only ever reads integral
Unix-second values from numeric fields. -/
def parseIntLit : List Char → Option (Int × List Char)
  | [] => none
  | c :: rest =>
    if c = '-' then
      match rest with
      | d :: rest2 =>
        if d.isDigit then
          if d == '0' && (match rest2 with | d2 :: _ => d2.isDigit | [] => false) then none
          else
            let (n, r) := digitsAux (d.toNat - 48) rest2
            some (-(Int.ofNat n), r)
        else none
      | [] => none
    else if c.isDigit then
      if c == '0' && (match rest with | d2 :: _ => d2.isDigit | [] => false) then none
      else
        let (n, r) := digitsAux (c.toNat - 48) rest
        some (Int.ofNat n, r)
    else none

mutual

/-- One JSON value (fuel-indexed to bound the recursion); returns the value
and the remaining input. -/
def parseVal : Nat → List Char → Option (Json × List Char)
  | 0, _ => none
  | fuel + 1, input =>
    match skipWs input with
    | [] => none
    | c :: rest =>
      if c = '"' then
        match parseStrChars rest with
        | some (cs, r) => some (Json.str (String.mk cs), r)
        | none => none
      else if c = '{' then
        parseObjItems fuel rest
      else if c = '[' then
        parseArrItems fuel rest
      else if c = 't' then
        match rest with
        | 'r' :: 'u' :: 'e' :: r => some (Json.bool true, r)
        | _ => none
      else if c = 'f' then
        match rest with
        | 'a' :: 'l' :: 's' :: 'e' :: r => some (Json.bool false, r)
        | _ => none
      else if c = 'n' then
        match rest with
        | 'u' :: 'l' :: 'l' :: r => some (Json.null, r)
        | _ => none
      else
        match parseIntLit (c :: rest) with
        | some (n, r) => some (Json.num n, r)
        | none => none

/-- Items of a JSON array, invoked just after the opening bracket. -/
def parseArrItems : Nat → List Char → Option (Json × List Char)
  | 0, _ => none
  | fuel + 1, input =>
    match skipWs input with
    | ']' :: r => some (Json.arr [], r)
    | _ =>
      match parseVal fuel input with
      | some (v, r) =>
        match parseArrMore fuel [v] r with
        | some (vs, r2) => some (Json.arr vs, r2)
        | none => none
      | none => none

/-- Remaining comma-separated items of a JSON array (accumulator holds the
items already read, in reverse). -/
def parseArrMore : Nat → List Json → List Char → Option (List Json × List Char)
  | 0, _, _ => none
  | fuel + 1, acc, input =>
    match skipWs input with
    | ']' :: r => some (acc.reverse, r)
    | ',' :: r =>
      match parseVal fuel r with
      | some (v, r2) => parseArrMore fuel (v :: acc) r2
      | none => none
    | _ => none

/-- Members of a JSON object, invoked just after the opening brace. -/
def parseObjItems : Nat → List Char → Option (Json × List Char)
  | 0, _ => none
  | fuel + 1, input =>
    match skipWs input with
    | '}' :: r => some (Json.obj [], r)
    | _ =>
      match parseMember fuel input with
      | some (kv, r) =>
        match parseObjMore fuel [kv] r with
        | some (kvs, r2) => some (Json.obj kvs, r2)
        | none => none
      | none => none

/-- Remaining comma-separated members of a JSON object. -/
def parseObjMore : Nat → List (String × Json) → List Char →
    Option (List (String × Json) × List Char)
  | 0, _, _ => none
  | fuel + 1, acc, input =>
    match skipWs input with
    | '}' :: r => some (acc.reverse, r)
    | ',' :: r =>
      match parseMember fuel r with
      | some (kv, r2) => parseObjMore fuel (kv :: acc) r2
      | none => none
    | _ => none

/-- One `"key": value` member of a JSON object. -/
def parseMember : Nat → List Char → Option ((String × Json) × List Char)
  | 0, _ => none
  | fuel + 1, input =>
    match skipWs input with
    | '"' :: rest =>
      match parseStrChars rest with
      | some (ks, r) =>
        match skipWs r with
        | ':' :: r2 =>
          match parseVal fuel r2 with
          | some (v, r3) => some ((String.mk ks, v), r3)
          | none => none
        | _ => none
      | none => none
    | _ => none

end

/-- `JSON.parse`: parse the whole text as a single JSON value (the fuel
`2 * length + 4` dominates the recursion depth, which consumes at least one
character per step). -/
def Json.parse (text : String) : Option Json :=
  match parseVal (2 * text.data.length + 4) text.data with
  | some (j, rest) => if skipWs rest = [] then some j else none
  | none => none

/-! ## Base64url payload decoding (`Buffer.from(padded, 'base64').toString('utf-8')`) -/

/-- The two global `payload.replace` calls: map the URL-safe base64 alphabet
back to the standard one, dash to plus and underscore to slash. -/
def toStdBase64 (s : String) : String :=
  String.mk ((s.data.map fun c => if c = '-' then '+' else c).map
    fun c => if c = '_' then '/' else c)

/-- `base64.padEnd(base64.length + (4 - (base64.length % 4)) % 4, '=')`:
right-pad with `=` to a multiple of 4 characters. -/
def padBase64 (s : String) : String :=
  String.mk (s.data ++ List.replicate ((4 - s.data.length % 4) % 4) '=')

/-- Value of a character of the standard base64 alphabet. -/
def base64Digit (c : Char) : Option Nat :=
  if 'A' ≤ c ∧ c ≤ 'Z' then some (c.toNat - 65)
  else if 'a' ≤ c ∧ c ≤ 'z' then some (c.toNat - 97 + 26)
  else if '0' ≤ c ∧ c ≤ '9' then some (c.toNat - 48 + 52)
  else if c = '+' then some 62
  else if c = '/' then some 63
  else none

/-- Strict base64 decoding to bytes: 4-character groups, `=` padding allowed
only at the very end.  This is a *domain-restricted* model of the runtime
decoder: on every input it accepts it agrees byte-for-byte with Node's
forgiving decoder (`nodeBase64DecodeBytes`, theorem
`nodeBase64_agrees_on_strict`), and `none` only marks inputs outside that
domain — it does not model a runtime error, because `Buffer.from(s,
'base64')` is total and never throws. -/
def base64DecodeBytes : List Char → Option (List Nat)
  | [] => some []
  | c1 :: c2 :: c3 :: c4 :: rest =>
    match base64Digit c1, base64Digit c2 with
    | some v1, some v2 =>
      if c3 = '=' then
        if c4 = '=' ∧ rest = [] then some [v1 * 4 + v2 / 16] else none
      else
        match base64Digit c3 with
        | some v3 =>
          if c4 = '=' then
            if rest = [] then some [v1 * 4 + v2 / 16, v2 % 16 * 16 + v3 / 4]
            else none
          else
            match base64Digit c4, base64DecodeBytes rest with
            | some v4, some bs =>
              some ((v1 * 4 + v2 / 16) :: (v2 % 16 * 16 + v3 / 4) ::
                    (v3 % 4 * 64 + v4) :: bs)
            | _, _ => none
        | none => none
    | _, _ => none
  | _ => none

/-- Is `b` a UTF-8 continuation byte (`10xxxxxx`)? -/
def isCont (b : Nat) : Bool :=
  0x80 ≤ b && b < 0xC0

/-- Decode one scalar value starting at lead byte `b` with tail `rest`:
the character and the remaining bytes, or `none` on any defect
(bad lead or continuation byte, overlong form, surrogate, out of range). -/
def utf8Step (b : Nat) (rest : List Nat) : Option (Char × List Nat) :=
  if b < 0x80 then some (Char.ofNat b, rest)
  else if b < 0xC2 then none
  else if b < 0xE0 then
    match rest with
    | b2 :: rest2 =>
      if isCont b2 then some (Char.ofNat ((b - 0xC0) * 64 + (b2 - 0x80)), rest2)
      else none
    | [] => none
  else if b < 0xF0 then
    match rest with
    | b2 :: b3 :: rest2 =>
      if isCont b2 && isCont b3 then
        let n := (b - 0xE0) * 4096 + (b2 - 0x80) * 64 + (b3 - 0x80)
        if n < 0x800 || (0xD800 ≤ n && n < 0xE000) then none
        else some (Char.ofNat n, rest2)
      else none
    | _ => none
  else if b < 0xF5 then
    match rest with
    | b2 :: b3 :: b4 :: rest2 =>
      if isCont b2 && isCont b3 && isCont b4 then
        let n := (b - 0xF0) * 262144 + (b2 - 0x80) * 4096 +
                 (b3 - 0x80) * 64 + (b4 - 0x80)
        if n < 0x10000 || 0x10FFFF < n then none
        else some (Char.ofNat n, rest2)
      else none
    | _ => none
  else none

/-- Work loop of the strict UTF-8 decoder: one `utf8Step` per fuel unit.
Every step consumes at least one byte, so fuel at least the length of the
input makes the zero-fuel fallback unreachable. -/
def utf8DecodeLoop : Nat → List Nat → Option (List Char)
  | _, [] => some []
  | 0, _ :: _ => none
  | fuel + 1, b :: rest =>
    match utf8Step b rest with
    | some (c, rest2) =>
      match utf8DecodeLoop fuel rest2 with
      | some cs => some (c :: cs)
      | none => none
    | none => none

/-- Strict UTF-8 decoding of a byte sequence (rejecting overlong forms,
surrogates and out-of-range code points).  Domain-restricted model of the
runtime conversion: on byte sequences it accepts it agrees with the total
replacement decoder `nodeUtf8Decode` (theorem `nodeUtf8_agrees_on_strict`);
`none` marks invalid UTF-8, which the runtime's `toString('utf-8')` does not
reject but replaces. -/
def utf8Decode (bs : List Nat) : Option (List Char) :=
  utf8DecodeLoop bs.length bs

/-- Interpret decoded bytes as UTF-8 text. -/
def utf8ToString (bs : List Nat) : Option String :=
  (utf8Decode bs).map String.mk

/-- The `try`-block of FR-002 under the strict decoders: URL-safe alphabet
mapped to the standard one, `=`-padding to a multiple of 4, base64 decoding
to bytes, bytes interpreted as UTF-8 text.  On `some` it coincides with the
runtime's total decode (`nodeDecodeBase64UrlUtf8`, theorem
`nodeDecode_agrees_on_strict`); `none` marks the inputs on which the strict
model abstains, *not* a runtime error — the runtime conversion is total, so
the source's `catch` clause around this block can never fire. -/
def decodeBase64UrlUtf8 (payload : String) : Option String :=
  (base64DecodeBytes (padBase64 (toStdBase64 payload)).data).bind utf8ToString

/-! ## The runtime (Node) semantics of the payload conversion

`Buffer.from(padded, 'base64')` and `buf.toString('utf-8')` are total:
Node's base64 table maps the characters of both base64 alphabets and skips
every other character (including `=`, whose trailing occurrences only cap
the nominal output size, a cap that never binds), and V8's UTF-8 conversion
replaces each maximal invalid subpart with U+FFFD instead of erroring.  The
definitions below model that runtime behavior; they make the `catch` in
lines 106–111 of the parser unreachable. -/

/-- Node's base64 character table: both the standard and the URL-safe
alphabet decode; everything else — including `=` — is skipped. -/
def nodeB64Val (c : Char) : Option Nat :=
  if 'A' ≤ c ∧ c ≤ 'Z' then some (c.toNat - 65)
  else if 'a' ≤ c ∧ c ≤ 'z' then some (c.toNat - 97 + 26)
  else if '0' ≤ c ∧ c ≤ '9' then some (c.toNat - 48 + 52)
  else if c = '+' then some 62
  else if c = '/' then some 63
  else if c = '-' then some 62
  else if c = '_' then some 63
  else none

/-- Bytes from a stream of base64 digit values: full 4-value groups yield 3
bytes; a trailing group of 2 or 3 values yields 1 or 2 bytes; a trailing
single value yields nothing.  Never fails. -/
def quadBytes : List Nat → List Nat
  | v1 :: v2 :: v3 :: v4 :: rest =>
    (v1 * 4 + v2 / 16) :: (v2 % 16 * 16 + v3 / 4) ::
      (v3 % 4 * 64 + v4) :: quadBytes rest
  | [v1, v2, v3] => [v1 * 4 + v2 / 16, v2 % 16 * 16 + v3 / 4]
  | [v1, v2] => [v1 * 4 + v2 / 16]
  | _ => []

/-- Node's `Buffer.from(s, 'base64')`: skip every character outside the
table, then decode the surviving digit values.  Total. -/
def nodeBase64DecodeBytes (cs : List Char) : List Nat :=
  quadBytes (cs.filterMap nodeB64Val)

/-- The U+FFFD replacement character. -/
def utf8Replacement : Char := Char.ofNat 0xFFFD

/-- Lead-byte-specific range of a valid second byte of a multi-byte UTF-8
sequence (the WHATWG rule: `E0` tightens to `A0..BF`, `ED` to `80..9F`,
`F0` to `90..BF`, `F4` to `80..8F`; otherwise any continuation byte). -/
def validSecondByte (b b2 : Nat) : Bool :=
  if b = 0xE0 then 0xA0 ≤ b2 && b2 ≤ 0xBF
  else if b = 0xED then 0x80 ≤ b2 && b2 ≤ 0x9F
  else if b = 0xF0 then 0x90 ≤ b2 && b2 ≤ 0xBF
  else if b = 0xF4 then 0x80 ≤ b2 && b2 ≤ 0x8F
  else isCont b2

/-- One step of the total UTF-8 replacement decoder: the decoded character
(U+FFFD when the bytes at hand are a maximal invalid subpart) and the bytes
at which decoding resumes. -/
def nodeUtf8Step (b : Nat) (rest : List Nat) : Char × List Nat :=
  if b < 0x80 then (Char.ofNat b, rest)
  else if b < 0xC2 then (utf8Replacement, rest)
  else if b < 0xE0 then
    match rest with
    | [] => (utf8Replacement, [])
    | b2 :: rest2 =>
      if isCont b2 then (Char.ofNat ((b - 0xC0) * 64 + (b2 - 0x80)), rest2)
      else (utf8Replacement, b2 :: rest2)
  else if b < 0xF0 then
    match rest with
    | [] => (utf8Replacement, [])
    | b2 :: rest2 =>
      if validSecondByte b b2 then
        match rest2 with
        | [] => (utf8Replacement, [])
        | b3 :: rest3 =>
          if isCont b3 then
            (Char.ofNat ((b - 0xE0) * 4096 + (b2 - 0x80) * 64 + (b3 - 0x80)), rest3)
          else (utf8Replacement, b3 :: rest3)
      else (utf8Replacement, b2 :: rest2)
  else if b < 0xF5 then
    match rest with
    | [] => (utf8Replacement, [])
    | b2 :: rest2 =>
      if validSecondByte b b2 then
        match rest2 with
        | [] => (utf8Replacement, [])
        | b3 :: rest3 =>
          if isCont b3 then
            match rest3 with
            | [] => (utf8Replacement, [])
            | b4 :: rest4 =>
              if isCont b4 then
                (Char.ofNat ((b - 0xF0) * 262144 + (b2 - 0x80) * 4096 +
                             (b3 - 0x80) * 64 + (b4 - 0x80)), rest4)
              else (utf8Replacement, b4 :: rest4)
          else (utf8Replacement, b3 :: rest3)
      else (utf8Replacement, b2 :: rest2)
  else (utf8Replacement, rest)

/-- Work loop of the total UTF-8 replacement decoder: one `nodeUtf8Step` per
fuel unit.  Every step consumes at least one byte, so fuel at least the
length of the input makes the zero-fuel fallback unreachable. -/
def nodeUtf8DecodeGo : Nat → List Nat → List Char
  | _, [] => []
  | 0, _ :: _ => []
  | fuel + 1, b :: rest =>
    (nodeUtf8Step b rest).1 :: nodeUtf8DecodeGo fuel (nodeUtf8Step b rest).2

/-- `buf.toString('utf-8')`: total UTF-8 decoding with U+FFFD substituted
for each maximal invalid subpart, as V8 performs it. -/
def nodeUtf8Decode (bs : List Nat) : List Char :=
  nodeUtf8DecodeGo bs.length bs

/-- Decoded bytes as UTF-8 text under the runtime semantics.  Total. -/
def nodeUtf8String (bs : List Nat) : String :=
  String.mk (nodeUtf8Decode bs)

/-- The whole `try`-block of FR-002 under the runtime semantics: the same
character mapping and `=`-padding, then the total decoders.  Never fails,
so the surrounding `catch` is dead code. -/
def nodeDecodeBase64UrlUtf8 (payload : String) : String :=
  nodeUtf8String (nodeBase64DecodeBytes (padBase64 (toStdBase64 payload)).data)

/-! ## Data model and exception shapes -/

/-- `UserClaims` (models/user-claims.interface.ts): the decoded identity. -/
structure UserClaims where
  sub : String
  email : String
  roles : List String
  exp : Option Int
  iat : Option Int
deriving DecidableEq

/-- `AuthError` (models/auth-error.interface.ts): the structured body every
auth exception carries — numeric status, machine-readable code, message. -/
structure AuthError where
  statusCode : Nat
  error : String
  message : String
deriving DecidableEq

/-- `InvalidTokenException`: 401 `INVALID_TOKEN` with the given message. -/
def InvalidTokenException (message : String) : AuthError :=
  { statusCode := 401, error := "INVALID_TOKEN", message := message }

/-- `InsufficientPermissionsException`: 403 `INSUFFICIENT_PERMISSIONS`. -/
def InsufficientPermissionsException (message : String) : AuthError :=
  { statusCode := 403, error := "INSUFFICIENT_PERMISSIONS", message := message }

/-! ## String helpers mirroring the JavaScript string operations -/

/-- Whitespace removed by JavaScript `String.prototype.trim` (the code points
that actually occur in headers and claims; the full ECMAScript class also has
the exotic Unicode spaces). -/
def isJsTrimWs (c : Char) : Bool :=
  c = ' ' || c = '\t' || c = '\n' || c = '\r' ||
  c.toNat = 11 || c.toNat = 12 || c.toNat = 160 || c.toNat = 65279

/-- JavaScript `s.trim()`. -/
def jsTrim (s : String) : String :=
  String.mk (((s.data.dropWhile isJsTrimWs).reverse.dropWhile isJsTrimWs).reverse)

/-- JavaScript `token.split('.')` on the character list: splitting an empty
string yields one empty segment, and separators at the ends yield empty
segments. -/
def splitOnDot : List Char → List (List Char)
  | [] => [[]]
  | c :: rest =>
    if c = '.' then [] :: splitOnDot rest
    else
      match splitOnDot rest with
      | g :: gs => (c :: g) :: gs
      | [] => [[c]]

/-- `token.split('.')` as strings. -/
def tokenParts (token : String) : List String :=
  (splitOnDot token.data).map String.mk

/-! ## JwtParserService.parseToken -/

/-- The guard `!parsedClaims || typeof parsedClaims !== 'object'` in
JavaScript terms: `null` is falsy, and `typeof` of both plain objects and
arrays is `'object'`, so exactly objects and arrays pass. -/
def jsTruthyObject : Json → Bool
  | Json.obj _ => true
  | Json.arr _ => true
  | _ => false

/-- Named property table of the parsed payload once the object guard has
passed: an object exposes its fields; an array exposes none of the claim
names the parser reads (`sub`, `email`, `roles`, `exp`, `iat`). -/
def claimFields : Json → List (String × Json)
  | Json.obj fields => fields
  | _ => []

/-- `xs.every(r => typeof r === 'string')` together with the resulting string
list: `some` exactly when every element is a JSON string. -/
def allStrings : List Json → Option (List String)
  | [] => some []
  | Json.str s :: rest =>
    match allStrings rest with
    | some ss => some (s :: ss)
    | none => none
  | _ :: _ => none

/-- FR-014: the `roles` claim defaults to the empty array when absent, not an
array, or an array with a non-string element; an array of strings is used
as-is. -/
def normalizeRoles (v : Option Json) : List String :=
  match v with
  | none => []
  | some (Json.arr xs) =>
    match allStrings xs with
    | some ss => ss
    | none => []
  | some _ => []

/-- `typeof claims.exp === 'number' ? claims.exp : undefined` (same for
`iat`). -/
def numOrNone : Option Json → Option Int
  | some (Json.num n) => some n
  | _ => none

/-- The condition FR-013 logs on: `exp` present, numeric and strictly below
the current Unix time.  The source only emits a warning here; the token is
accepted either way. -/
def tokenExpired (now : Int) (fields : List (String × Json)) : Bool :=
  match getField fields "exp" with
  | some (Json.num e) => decide (e < now)
  | _ => false

/-- Lines 113–190 of the parser: JSON-parse the decoded payload text, guard
its shape, validate `sub` and `email`, normalize `roles`, carry `exp`/`iat`.
`now` is the current Unix time the source reads for the expiration warning;
it influences only that log line, never the result. -/
def parsePayload (now : Int) (decodedPayload : String) : Except AuthError UserClaims :=
  match Json.parse decodedPayload with
  | none => Except.error (InvalidTokenException "JWT payload is not valid JSON")
  | some parsedClaims =>
    if jsTruthyObject parsedClaims then
      let claims := claimFields parsedClaims
      match getField claims "sub" with
      | some (Json.str subClaim) =>
        if jsTrim subClaim = "" then
          Except.error (InvalidTokenException "JWT token must contain a valid \"sub\" claim")
        else
          match getField claims "email" with
          | some (Json.str emailClaim) =>
            if jsTrim emailClaim = "" then
              Except.error (InvalidTokenException "JWT token must contain a valid \"email\" claim")
            else
              let roles := normalizeRoles (getField claims "roles")
              let _expiredWarning := tokenExpired now claims
              Except.ok { sub := subClaim, email := emailClaim, roles := roles,
                          exp := numOrNone (getField claims "exp"),
                          iat := numOrNone (getField claims "iat") }
          | _ => Except.error (InvalidTokenException "JWT token must contain a valid \"email\" claim")
      | _ => Except.error (InvalidTokenException "JWT token must contain a valid \"sub\" claim")
    else Except.error (InvalidTokenException "JWT payload must be an object")

/-- `JwtParserService.parseToken`: split on dots into exactly 3 parts, decode
the middle part from base64url, then validate the payload.  A thrown
`InvalidTokenException` is the `Except.error` side.  The decode stage here is
the strict model `decodeBase64UrlUtf8`; its `none` branch mirrors the
source's `catch` clause, which the runtime semantics can never reach —
`parseTokenRuntime` below is the same method under the runtime's total
decode, and the two agree whenever the strict decode succeeds
(`parseToken_agrees_runtime`). -/
def JwtParserService.parseToken (now : Int) (token : String) : Except AuthError UserClaims :=
  match tokenParts token with
  | [_, payload, _] =>
    match decodeBase64UrlUtf8 payload with
    | none => Except.error (InvalidTokenException "JWT payload is not valid base64url encoding")
    | some decodedPayload => parsePayload now decodedPayload
  | _ => Except.error (InvalidTokenException "JWT token must have exactly 3 parts separated by dots")

/-- `JwtParserService.parseToken` under the runtime semantics of its two
library primitives: `Buffer.from(..., 'base64')` and `toString('utf-8')`
never throw, so the payload conversion is the total
`nodeDecodeBase64UrlUtf8` and the source's encoding-reason `catch` has no
corresponding branch — every remaining failure comes from the 3-part check
or from the payload validator shared with `parseToken`. -/
def JwtParserService.parseTokenRuntime (now : Int) (token : String) : Except AuthError UserClaims :=
  match tokenParts token with
  | [_, payload, _] => parsePayload now (nodeDecodeBase64UrlUtf8 payload)
  | _ => Except.error (InvalidTokenException "JWT token must have exactly 3 parts separated by dots")

/-! ## Role guards -/

/-- `missingRoles.join(', ')` — JavaScript `Array.prototype.join` with a
comma-space separator. -/
def joinRoles : List String → String
  | [] => ""
  | [r] => r
  | r :: rest => r ++ ", " ++ joinRoles rest

/-- `RequireRolesGuard.canActivate` (any-of semantics), with the route
metadata (`undefined` when no decorator is present) and the request's user
slot as explicit inputs.  A thrown `InsufficientPermissionsException` is the
`Except.error` side; returning `true` lets the request through. -/
def RequireRolesGuard.canActivate (requiredRoles : Option (List String))
    (user : Option UserClaims) : Except AuthError Bool :=
  match requiredRoles with
  | none => Except.ok true
  | some required =>
    if required.isEmpty then Except.ok true
    else
      match user with
      | none =>
        Except.error (InsufficientPermissionsException
          "User must be authenticated to check roles")
      | some u =>
        if required.any (fun role => u.roles.contains role) then Except.ok true
        else
          Except.error (InsufficientPermissionsException
            ("User lacks required role. Required one of: [" ++
             joinRoles required ++ "]"))

/-- `RequireAllRolesGuard.canActivate` (all-of semantics). -/
def RequireAllRolesGuard.canActivate (requiredRoles : Option (List String))
    (user : Option UserClaims) : Except AuthError Bool :=
  match requiredRoles with
  | none => Except.ok true
  | some required =>
    if required.isEmpty then Except.ok true
    else
      match user with
      | none =>
        Except.error (InsufficientPermissionsException
          "User must be authenticated to check roles")
      | some u =>
        let missingRoles := required.filter fun role => !(u.roles.contains role)
        if missingRoles.length > 0 then
          Except.error (InsufficientPermissionsException
            ("User lacks required roles. Missing: [" ++
             joinRoles missingRoles ++ "]"))
        else Except.ok true

/-! ## AuthGuard and the claims accessors -/

/-- The per-request state the middleware touches: the `Authorization` header
(`none` when the header — or the whole headers bag — is absent) and the
`request.user` slot `AuthGuard` writes. -/
structure RequestState where
  authorization : Option String
  user : Option UserClaims
deriving DecidableEq

/-- Does the header start with the literal `Bearer ` scheme token
(case-sensitive, single space)? -/
def startsWithBearer : List Char → Bool
  | 'B' :: 'e' :: 'a' :: 'r' :: 'e' :: 'r' :: ' ' :: _ => true
  | _ => false

/-- `AuthGuard.canActivate`: extract the bearer token from the
`Authorization` header, parse it, and attach the resulting claims to
`request.user`.  Returns the outcome together with the request state after
the call; on every failure the request is returned untouched. -/
def AuthGuard.canActivate (now : Int) (request : RequestState) :
    Except AuthError Bool × RequestState :=
  match request.authorization with
  | none => (Except.error (InvalidTokenException "Missing Authorization header"), request)
  | some authHeader =>
    -- `if (!authHeader)`: the empty string is falsy in JavaScript
    if authHeader = "" then
      (Except.error (InvalidTokenException "Missing Authorization header"), request)
    else if !(startsWithBearer authHeader.data) then
      (Except.error (InvalidTokenException "Authorization header must use Bearer scheme"), request)
    else
      -- `authHeader.substring('Bearer '.length).trim()`
      let token := jsTrim (String.mk (authHeader.data.drop 7))
      if token = "" then
        (Except.error (InvalidTokenException "Bearer token is empty"), request)
      else
        match JwtParserService.parseToken now token with
        | Except.error e => (Except.error e, request)
        | Except.ok userClaims =>
          (Except.ok true, { request with user := some userClaims })

/-- `UserClaimsService.getUserClaims`: `request.user || null`. -/
def UserClaimsService.getUserClaims (request : RequestState) : Option UserClaims :=
  request.user

/-- The standalone `GetUserClaims` helper: also `request.user || null`. -/
def GetUserClaims (request : RequestState) : Option UserClaims :=
  request.user

/-- The claim names the `@User()` decorator can project out. -/
inductive ClaimKey where
  | sub
  | email
  | roles
  | exp
  | iat
deriving DecidableEq

/-- A projected claim value as JavaScript sees it (`undef` models the
`undefined` an absent optional claim yields). -/
inductive ClaimValue where
  | str (s : String)
  | strings (rs : List String)
  | num (n : Int)
  | undef
deriving DecidableEq

/-- Property read `user[data]` for a present user. -/
def UserClaims.getClaim (u : UserClaims) : ClaimKey → ClaimValue
  | ClaimKey.sub => ClaimValue.str u.sub
  | ClaimKey.email => ClaimValue.str u.email
  | ClaimKey.roles => ClaimValue.strings u.roles
  | ClaimKey.exp =>
    match u.exp with
    | some n => ClaimValue.num n
    | none => ClaimValue.undef
  | ClaimKey.iat =>
    match u.iat with
    | some n => ClaimValue.num n
    | none => ClaimValue.undef

/-- The `@User('field')` decorator body: `user?.[data]` — `undefined` when no
user is attached to the request. -/
def userDecoratorField (key : ClaimKey) (request : RequestState) : Option ClaimValue :=
  request.user.map fun u => u.getClaim key

/-- The `@User()` decorator body without a field argument: the whole claims
record, `undefined` when no user is attached. -/
def userDecoratorFull (request : RequestState) : Option UserClaims :=
  request.user

/-! ## Theorems: role-authorization policy -/

/-- A non-empty list is not `isEmpty`. -/
theorem isEmpty_false_of_ne_nil {α : Type} {l : List α} (h : l ≠ []) :
    l.isEmpty = false := by
  cases l with
  | nil => exact absurd rfl h
  | cons a t => rfl

/-- C2: for a non-empty ANY_OF requirement and a present identity, the guard
allows exactly when some required role occurs (case-sensitive string
equality) in the identity's roles; on denial the exception carries the full
required list joined into the message, not a missing subset. -/
theorem RequireRolesGuard_anyOf_correct (required : List String) (u : UserClaims)
    (hne : required ≠ []) :
    (RequireRolesGuard.canActivate (some required) (some u) = Except.ok true ↔
       ∃ r ∈ required, r ∈ u.roles) ∧
    ((∀ r ∈ required, r ∉ u.roles) →
       RequireRolesGuard.canActivate (some required) (some u) =
         Except.error (InsufficientPermissionsException
           ("User lacks required role. Required one of: [" ++
            joinRoles required ++ "]"))) := by
  have hemp := isEmpty_false_of_ne_nil hne
  have hiff : (required.any fun role => u.roles.contains role) = true ↔
      ∃ r ∈ required, r ∈ u.roles := by
    simp [List.any_eq_true, List.elem_iff]
  constructor
  · cases hany : required.any fun role => u.roles.contains role with
    | false =>
      simp only [RequireRolesGuard.canActivate, hemp, hany]
      simp only [Bool.false_eq_true, if_false, reduceCtorEq, false_iff]
      rw [← hiff, hany]
      simp
    | true =>
      simp only [RequireRolesGuard.canActivate, hemp, hany]
      simp only [Bool.false_eq_true, if_false, if_true, true_iff]
      exact hiff.mp hany
  · intro hnone
    have hany : (required.any fun role => u.roles.contains role) = false := by
      rw [← Bool.not_eq_true, hiff]
      push_neg
      exact hnone
    simp only [RequireRolesGuard.canActivate, hemp, hany]
    simp

/-- Witness for C2 at a concrete requirement and identity. -/
theorem RequireRolesGuard_anyOf_correct_witness :
    (RequireRolesGuard.canActivate (some ["admin", "moderator"])
        (some { sub := "user-123", email := "test@example.com",
                roles := ["user"], exp := none, iat := none }) = Except.ok true ↔
       ∃ r ∈ ["admin", "moderator"],
         r ∈ ({ sub := "user-123", email := "test@example.com",
                roles := ["user"], exp := none, iat := none } : UserClaims).roles) ∧
    ((∀ r ∈ ["admin", "moderator"],
        r ∉ ({ sub := "user-123", email := "test@example.com",
               roles := ["user"], exp := none, iat := none } : UserClaims).roles) →
       RequireRolesGuard.canActivate (some ["admin", "moderator"])
           (some { sub := "user-123", email := "test@example.com",
                   roles := ["user"], exp := none, iat := none }) =
         Except.error (InsufficientPermissionsException
           ("User lacks required role. Required one of: [" ++
            joinRoles ["admin", "moderator"] ++ "]"))) :=
  RequireRolesGuard_anyOf_correct ["admin", "moderator"]
    { sub := "user-123", email := "test@example.com",
      roles := ["user"], exp := none, iat := none } (by decide)

/-- C3: for a non-empty ALL_OF requirement and a present identity, the guard
allows exactly when every required role occurs in the identity's roles; on
denial the exception message carries `missingRoles`, which is exactly the
subset of required roles absent from the identity's roles, as a sublist of
the requirement (so in its original order). -/
theorem RequireAllRolesGuard_allOf_correct (required : List String) (u : UserClaims)
    (hne : required ≠ []) :
    (RequireAllRolesGuard.canActivate (some required) (some u) = Except.ok true ↔
       ∀ r ∈ required, r ∈ u.roles) ∧
    ((required.filter fun r => !(u.roles.contains r)) ≠ [] →
       RequireAllRolesGuard.canActivate (some required) (some u) =
         Except.error (InsufficientPermissionsException
           ("User lacks required roles. Missing: [" ++
            joinRoles (required.filter fun r => !(u.roles.contains r)) ++ "]"))) ∧
    (required.filter fun r => !(u.roles.contains r)).Sublist required ∧
    (∀ r, r ∈ (required.filter fun r => !(u.roles.contains r)) ↔
       r ∈ required ∧ r ∉ u.roles) := by
  have hemp := isEmpty_false_of_ne_nil hne
  have hmem : ∀ r, r ∈ (required.filter fun r => !(u.roles.contains r)) ↔
      r ∈ required ∧ r ∉ u.roles := by
    intro r
    simp [List.mem_filter, List.elem_iff]
  refine ⟨?_, ?_, List.filter_sublist required, hmem⟩
  · cases hfil : (required.filter fun r => !(u.roles.contains r)).length with
    | zero =>
      have hnil : (required.filter fun r => !(u.roles.contains r)) = [] :=
        List.eq_nil_of_length_eq_zero hfil
      simp only [RequireAllRolesGuard.canActivate, hemp, hfil]
      simp only [Bool.false_eq_true, if_false, gt_iff_lt, Nat.lt_irrefl, if_neg,
        Nat.not_lt_zero, ite_false, true_iff]
      intro r hr
      by_contra hnot
      have : r ∈ (required.filter fun r => !(u.roles.contains r)) :=
        (hmem r).mpr ⟨hr, hnot⟩
      rw [hnil] at this
      simp at this
    | succ n =>
      simp only [RequireAllRolesGuard.canActivate, hemp, hfil]
      simp only [Bool.false_eq_true, if_false, gt_iff_lt, Nat.succ_pos, if_pos,
        ite_true, reduceCtorEq, false_iff]
      intro hall
      have hnil : (required.filter fun r => !(u.roles.contains r)) = [] := by
        rw [List.eq_nil_iff_forall_not_mem]
        intro r hr
        have := (hmem r).mp hr
        exact this.2 (hall r this.1)
      rw [hnil] at hfil
      simp at hfil
  · intro hnil
    have hlen : (required.filter fun r => !(u.roles.contains r)).length > 0 := by
      cases hf : (required.filter fun r => !(u.roles.contains r)) with
      | nil => exact absurd hf hnil
      | cons a t => simp [hf]
    simp only [RequireAllRolesGuard.canActivate, hemp]
    simp only [Bool.false_eq_true, if_false, hlen, if_pos, ite_true]

/-- Witness for C3 at a concrete requirement and identity. -/
theorem RequireAllRolesGuard_allOf_correct_witness :
    (RequireAllRolesGuard.canActivate (some ["admin", "superuser"])
        (some { sub := "u1", email := "e@x", roles := ["admin"],
                exp := none, iat := none }) = Except.ok true ↔
       ∀ r ∈ ["admin", "superuser"],
         r ∈ ({ sub := "u1", email := "e@x", roles := ["admin"],
                exp := none, iat := none } : UserClaims).roles) ∧
    ((["admin", "superuser"].filter fun r =>
        !(({ sub := "u1", email := "e@x", roles := ["admin"],
             exp := none, iat := none } : UserClaims).roles.contains r)) ≠ [] →
       RequireAllRolesGuard.canActivate (some ["admin", "superuser"])
           (some { sub := "u1", email := "e@x", roles := ["admin"],
                   exp := none, iat := none }) =
         Except.error (InsufficientPermissionsException
           ("User lacks required roles. Missing: [" ++
            joinRoles (["admin", "superuser"].filter fun r =>
              !(({ sub := "u1", email := "e@x", roles := ["admin"],
                   exp := none, iat := none } : UserClaims).roles.contains r)) ++ "]"))) ∧
    (["admin", "superuser"].filter fun r =>
       !(({ sub := "u1", email := "e@x", roles := ["admin"],
            exp := none, iat := none } : UserClaims).roles.contains r)).Sublist
      ["admin", "superuser"] ∧
    (∀ r, r ∈ (["admin", "superuser"].filter fun r =>
         !(({ sub := "u1", email := "e@x", roles := ["admin"],
              exp := none, iat := none } : UserClaims).roles.contains r)) ↔
       r ∈ ["admin", "superuser"] ∧
       r ∉ ({ sub := "u1", email := "e@x", roles := ["admin"],
              exp := none, iat := none } : UserClaims).roles) :=
  RequireAllRolesGuard_allOf_correct ["admin", "superuser"]
    { sub := "u1", email := "e@x", roles := ["admin"], exp := none, iat := none }
    (by decide)

/-- C4: an empty declared requirement always allows, in either mode, for any
present identity (in particular one with zero roles). -/
theorem emptyRequirement_always_allows (u : UserClaims) :
    RequireRolesGuard.canActivate (some []) (some u) = Except.ok true ∧
    RequireAllRolesGuard.canActivate (some []) (some u) = Except.ok true :=
  ⟨rfl, rfl⟩

/-- Counterexample to C5 as stated: with an *empty* requirement the guards
return before ever consulting the user slot, so authorization with no
identity in request context results in allow, not a NotAuthenticated
failure. -/
theorem emptyRequirement_absentUser_allows :
    RequireRolesGuard.canActivate (some []) none = Except.ok true ∧
    RequireAllRolesGuard.canActivate (some []) none = Except.ok true :=
  ⟨rfl, rfl⟩

/-- C5 (amended): for a *non-empty* requirement, invoking either guard with
no identity in request context fails with the NotAuthenticated-kind 403
(`INSUFFICIENT_PERMISSIONS`, message `User must be authenticated to check
roles`) — the absent identity is not treated as an identity with no roles. -/
theorem guards_notAuthenticated_on_absent_user (required : List String)
    (hne : required ≠ []) :
    RequireRolesGuard.canActivate (some required) none =
      Except.error (InsufficientPermissionsException
        "User must be authenticated to check roles") ∧
    RequireAllRolesGuard.canActivate (some required) none =
      Except.error (InsufficientPermissionsException
        "User must be authenticated to check roles") := by
  have hemp := isEmpty_false_of_ne_nil hne
  constructor
  · simp only [RequireRolesGuard.canActivate, hemp]
    simp
  · simp only [RequireAllRolesGuard.canActivate, hemp]
    simp

/-- Witness for the amended C5 at a concrete non-empty requirement. -/
theorem guards_notAuthenticated_on_absent_user_witness :
    RequireRolesGuard.canActivate (some ["admin"]) none =
      Except.error (InsufficientPermissionsException
        "User must be authenticated to check roles") ∧
    RequireAllRolesGuard.canActivate (some ["admin"]) none =
      Except.error (InsufficientPermissionsException
        "User must be authenticated to check roles") :=
  guards_notAuthenticated_on_absent_user ["admin"] (by decide)

/-! ## Theorems: token decoding -/

/-- C1: a 3-segment token whose middle segment base64url-decodes to a JSON
object with string `sub` and `email` fields that are non-empty after
trimming decodes successfully, and the produced claims carry exactly those
`sub` and `email` values. -/
theorem parseToken_success_carries_sub_email
    (now : Int) (token hdr payload sig txt : String)
    (fields : List (String × Json)) (subv emailv : String)
    (hsplit : tokenParts token = [hdr, payload, sig])
    (hdec : decodeBase64UrlUtf8 payload = some txt)
    (hjson : Json.parse txt = some (Json.obj fields))
    (hsub : getField fields "sub" = some (Json.str subv))
    (hsubne : jsTrim subv ≠ "")
    (hemail : getField fields "email" = some (Json.str emailv))
    (hemailne : jsTrim emailv ≠ "") :
    ∃ c, JwtParserService.parseToken now token = Except.ok c ∧
      c.sub = subv ∧ c.email = emailv := by
  refine ⟨{ sub := subv, email := emailv,
            roles := normalizeRoles (getField fields "roles"),
            exp := numOrNone (getField fields "exp"),
            iat := numOrNone (getField fields "iat") }, ?_, rfl, rfl⟩
  simp only [JwtParserService.parseToken, hsplit, hdec, parsePayload, hjson,
    jsTruthyObject, claimFields, hsub, hemail, if_true, if_neg hsubne,
    if_neg hemailne]

/-- Witness for C1 on a concrete token whose payload is
`{"sub":"u1","email":"e@x"}`. -/
theorem parseToken_success_carries_sub_email_witness :
    ∃ c, JwtParserService.parseToken 0 "a.eyJzdWIiOiJ1MSIsImVtYWlsIjoiZUB4In0.b" =
      Except.ok c ∧ c.sub = "u1" ∧ c.email = "e@x" :=
  parseToken_success_carries_sub_email 0
    "a.eyJzdWIiOiJ1MSIsImVtYWlsIjoiZUB4In0.b"
    "a" "eyJzdWIiOiJ1MSIsImVtYWlsIjoiZUB4In0" "b"
    "\x7b\"sub\":\"u1\",\"email\":\"e@x\"\x7d"
    [("sub", Json.str "u1"), ("email", Json.str "e@x")]
    "u1" "e@x"
    rfl rfl rfl rfl (by decide) rfl (by decide)

/-- Counterexample to C6 as stated: the payload `[]` of the 3-segment token
`a.W10.b` decodes and parses to a JSON array — not an object — yet decoding
fails with the missing-`sub` reason, not the payload-shape reason, because
JavaScript's `typeof` of an array is `'object'` and the array passes the
shape guard. -/
theorem parseToken_array_payload_missing_sub :
    tokenParts "a.W10.b" = ["a", "W10", "b"] ∧
    decodeBase64UrlUtf8 "W10" = some "[]" ∧
    Json.parse "[]" = some (Json.arr []) ∧
    JwtParserService.parseToken 0 "a.W10.b" =
      Except.error (InvalidTokenException "JWT token must contain a valid \"sub\" claim") :=
  ⟨rfl, rfl, rfl, rfl⟩

/-- C6 (amended): for a 3-segment token whose payload decodes to UTF-8 text,
a JSON parse failure gives the bad-JSON error and a parsed value that fails
the shape guard (null or a scalar — JavaScript's truthy-`object` test) gives
the not-an-object error; a parsed *array*, however, passes the guard (its
`typeof` is `'object'`) and fails with the missing-`sub` reason instead. -/
theorem parseToken_payload_shape_errors
    (now : Int) (token hdr payload sig txt : String)
    (hsplit : tokenParts token = [hdr, payload, sig])
    (hdec : decodeBase64UrlUtf8 payload = some txt) :
    (Json.parse txt = none →
       JwtParserService.parseToken now token =
         Except.error (InvalidTokenException "JWT payload is not valid JSON")) ∧
    (∀ j, Json.parse txt = some j → jsTruthyObject j = false →
       JwtParserService.parseToken now token =
         Except.error (InvalidTokenException "JWT payload must be an object")) ∧
    (∀ xs, Json.parse txt = some (Json.arr xs) →
       JwtParserService.parseToken now token =
         Except.error (InvalidTokenException "JWT token must contain a valid \"sub\" claim")) ∧
    (∀ j, jsTruthyObject j = false ↔
       (∀ fs, j ≠ Json.obj fs) ∧ (∀ xs, j ≠ Json.arr xs)) := by
  refine ⟨?_, ?_, ?_, ?_⟩
  · intro h
    simp only [JwtParserService.parseToken, hsplit, hdec, parsePayload, h]
  · intro j hj hns
    simp only [JwtParserService.parseToken, hsplit, hdec, parsePayload, hj, hns]
    simp
  · intro xs hj
    simp only [JwtParserService.parseToken, hsplit, hdec, parsePayload, hj,
      jsTruthyObject, claimFields, getField, List.foldl_nil, if_true]
  · intro j
    cases j <;> simp [jsTruthyObject]

/-- Witness for the amended C6 on the concrete token `a.bnVsbA.b`, whose
payload decodes to the text `null`. -/
theorem parseToken_payload_shape_errors_witness :
    JwtParserService.parseToken 0 "a.bnVsbA.b" =
      Except.error (InvalidTokenException "JWT payload must be an object") :=
  ((parseToken_payload_shape_errors 0 "a.bnVsbA.b" "a" "bnVsbA" "b" "null"
      rfl rfl).2.1 Json.null rfl rfl)

/-- An array that is literally a list of JSON strings passes the
all-elements-are-strings check and yields exactly those strings. -/
theorem allStrings_map_str (ss : List String) :
    allStrings (ss.map Json.str) = some ss := by
  induction ss with
  | nil => rfl
  | cons s rest ih => simp [allStrings, ih]

/-- The all-elements-are-strings check fails as soon as one element is not a
JSON string. -/
theorem allStrings_eq_none_of_nonstring {xs : List Json} {e : Json}
    (he : e ∈ xs) (hns : ∀ s, e ≠ Json.str s) : allStrings xs = none := by
  induction xs with
  | nil => simp at he
  | cons x rest ih =>
    rcases List.mem_cons.mp he with heq | hmem
    · subst heq
      cases e with
      | str s => exact absurd rfl (hns s)
      | null => rfl
      | bool b => rfl
      | num n => rfl
      | arr l => rfl
      | obj l => rfl
    · cases x with
      | str s => simp [allStrings, ih hmem]
      | null => rfl
      | bool b => rfl
      | num n => rfl
      | arr l => rfl
      | obj l => rfl

/-- C7: decoding never fails on account of the `roles` field.  Under the same
success hypotheses as C1, the token decodes whatever the `roles` field holds,
and the produced roles list is the normalization of that field: empty when
the field is absent, not an array, or an array with a non-string element;
exactly the field's strings, order and duplicates preserved, when it is an
array of strings. -/
theorem parseToken_roles_normalization
    (now : Int) (token hdr payload sig txt : String)
    (fields : List (String × Json)) (subv emailv : String)
    (hsplit : tokenParts token = [hdr, payload, sig])
    (hdec : decodeBase64UrlUtf8 payload = some txt)
    (hjson : Json.parse txt = some (Json.obj fields))
    (hsub : getField fields "sub" = some (Json.str subv))
    (hsubne : jsTrim subv ≠ "")
    (hemail : getField fields "email" = some (Json.str emailv))
    (hemailne : jsTrim emailv ≠ "") :
    ∃ c, JwtParserService.parseToken now token = Except.ok c ∧
      c.roles = normalizeRoles (getField fields "roles") ∧
      (getField fields "roles" = none → c.roles = []) ∧
      (∀ j, getField fields "roles" = some j → (∀ xs, j ≠ Json.arr xs) →
         c.roles = []) ∧
      (∀ xs, getField fields "roles" = some (Json.arr xs) →
         (∃ e ∈ xs, ∀ s, e ≠ Json.str s) → c.roles = []) ∧
      (∀ ss, getField fields "roles" = some (Json.arr (ss.map Json.str)) →
         c.roles = ss) := by
  refine ⟨{ sub := subv, email := emailv,
            roles := normalizeRoles (getField fields "roles"),
            exp := numOrNone (getField fields "exp"),
            iat := numOrNone (getField fields "iat") }, ?_, rfl, ?_, ?_, ?_, ?_⟩
  · simp only [JwtParserService.parseToken, hsplit, hdec, parsePayload, hjson,
      jsTruthyObject, claimFields, hsub, hemail, if_true, if_neg hsubne,
      if_neg hemailne]
  · intro h
    simp [h, normalizeRoles]
  · intro j hj hnarr
    rw [hj]
    cases j with
    | arr xs => exact absurd rfl (hnarr xs)
    | null => rfl
    | bool b => rfl
    | num n => rfl
    | str s => rfl
    | obj l => rfl
  · intro xs hj hbad
    rw [hj]
    rcases hbad with ⟨e, he, hns⟩
    simp [normalizeRoles, allStrings_eq_none_of_nonstring he hns]
  · intro ss hj
    rw [hj]
    simp [normalizeRoles, allStrings_map_str]

/-- Witness for C7 on a concrete token whose payload is
`{"sub":"u1","email":"e@x","roles":["a","b","a"]}`. -/
theorem parseToken_roles_normalization_witness :
    ∃ c, JwtParserService.parseToken 0
        "h.eyJzdWIiOiJ1MSIsImVtYWlsIjoiZUB4Iiwicm9sZXMiOlsiYSIsImIiLCJhIl19.s" =
      Except.ok c ∧
      c.roles = normalizeRoles (getField
        [("sub", Json.str "u1"), ("email", Json.str "e@x"),
         ("roles", Json.arr [Json.str "a", Json.str "b", Json.str "a"])] "roles") ∧
      (getField
         [("sub", Json.str "u1"), ("email", Json.str "e@x"),
          ("roles", Json.arr [Json.str "a", Json.str "b", Json.str "a"])] "roles" =
           none → c.roles = []) ∧
      (∀ j, getField
         [("sub", Json.str "u1"), ("email", Json.str "e@x"),
          ("roles", Json.arr [Json.str "a", Json.str "b", Json.str "a"])] "roles" =
           some j → (∀ xs, j ≠ Json.arr xs) → c.roles = []) ∧
      (∀ xs, getField
         [("sub", Json.str "u1"), ("email", Json.str "e@x"),
          ("roles", Json.arr [Json.str "a", Json.str "b", Json.str "a"])] "roles" =
           some (Json.arr xs) → (∃ e ∈ xs, ∀ s, e ≠ Json.str s) → c.roles = []) ∧
      (∀ ss, getField
         [("sub", Json.str "u1"), ("email", Json.str "e@x"),
          ("roles", Json.arr [Json.str "a", Json.str "b", Json.str "a"])] "roles" =
           some (Json.arr (ss.map Json.str)) → c.roles = ss) :=
  parseToken_roles_normalization 0
    "h.eyJzdWIiOiJ1MSIsImVtYWlsIjoiZUB4Iiwicm9sZXMiOlsiYSIsImIiLCJhIl19.s"
    "h" "eyJzdWIiOiJ1MSIsImVtYWlsIjoiZUB4Iiwicm9sZXMiOlsiYSIsImIiLCJhIl19" "s"
    "\x7b\"sub\":\"u1\",\"email\":\"e@x\",\"roles\":[\"a\",\"b\",\"a\"]\x7d"
    [("sub", Json.str "u1"), ("email", Json.str "e@x"),
     ("roles", Json.arr [Json.str "a", Json.str "b", Json.str "a"])]
    "u1" "e@x"
    rfl rfl rfl rfl (by decide) rfl (by decide)

/-- C8: the `exp` field never causes a failure.  The decode result does not
depend on the current Unix time at all (the expiry comparison only feeds a
log line), so an expired token decodes exactly like an unexpired one; under
the C1 success hypotheses a numeric `exp` is carried into the result and any
non-numeric `exp` is treated as absent. -/
theorem parseToken_exp_never_fails
    (now now2 : Int) (token hdr payload sig txt : String)
    (fields : List (String × Json)) (subv emailv : String)
    (hsplit : tokenParts token = [hdr, payload, sig])
    (hdec : decodeBase64UrlUtf8 payload = some txt)
    (hjson : Json.parse txt = some (Json.obj fields))
    (hsub : getField fields "sub" = some (Json.str subv))
    (hsubne : jsTrim subv ≠ "")
    (hemail : getField fields "email" = some (Json.str emailv))
    (hemailne : jsTrim emailv ≠ "") :
    JwtParserService.parseToken now token = JwtParserService.parseToken now2 token ∧
    (∀ e : Int, getField fields "exp" = some (Json.num e) →
       ∃ c, JwtParserService.parseToken now token = Except.ok c ∧ c.exp = some e) ∧
    (∀ j, getField fields "exp" = some j → (∀ n, j ≠ Json.num n) →
       ∃ c, JwtParserService.parseToken now token = Except.ok c ∧ c.exp = none) ∧
    (getField fields "exp" = none →
       ∃ c, JwtParserService.parseToken now token = Except.ok c ∧ c.exp = none) := by
  have hok : JwtParserService.parseToken now token =
      Except.ok { sub := subv, email := emailv,
                  roles := normalizeRoles (getField fields "roles"),
                  exp := numOrNone (getField fields "exp"),
                  iat := numOrNone (getField fields "iat") } := by
    simp only [JwtParserService.parseToken, hsplit, hdec, parsePayload, hjson,
      jsTruthyObject, claimFields, hsub, hemail, if_true, if_neg hsubne,
      if_neg hemailne]
  refine ⟨rfl, ?_, ?_, ?_⟩
  · intro e he
    exact ⟨_, hok, by simp [numOrNone, he]⟩
  · intro j hj hnn
    refine ⟨_, hok, ?_⟩
    rw [hj]
    cases j with
    | num n => exact absurd rfl (hnn n)
    | null => rfl
    | bool b => rfl
    | str s => rfl
    | arr l => rfl
    | obj l => rfl
  · intro he
    exact ⟨_, hok, by simp [numOrNone, he]⟩

/-- Witness for C8 on a concrete already-expired token (payload
`{"sub":"u1","email":"e@x","exp":1}`, current time 1000): decodes
successfully, identically at current time 1000 and current time 0, with
`exp` carried through. -/
theorem parseToken_exp_never_fails_witness :
    JwtParserService.parseToken 1000 "a.eyJzdWIiOiJ1MSIsImVtYWlsIjoiZUB4IiwiZXhwIjoxfQ.b" =
      JwtParserService.parseToken 0 "a.eyJzdWIiOiJ1MSIsImVtYWlsIjoiZUB4IiwiZXhwIjoxfQ.b" ∧
    ∃ c, JwtParserService.parseToken 1000
        "a.eyJzdWIiOiJ1MSIsImVtYWlsIjoiZUB4IiwiZXhwIjoxfQ.b" =
      Except.ok c ∧ c.exp = some 1 :=
  have h := parseToken_exp_never_fails 1000 0
    "a.eyJzdWIiOiJ1MSIsImVtYWlsIjoiZUB4IiwiZXhwIjoxfQ.b"
    "a" "eyJzdWIiOiJ1MSIsImVtYWlsIjoiZUB4IiwiZXhwIjoxfQ" "b"
    "\x7b\"sub\":\"u1\",\"email\":\"e@x\",\"exp\":1\x7d"
    [("sub", Json.str "u1"), ("email", Json.str "e@x"), ("exp", Json.num 1)]
    "u1" "e@x"
    rfl rfl rfl rfl (by decide) rfl (by decide)
  ⟨h.1, h.2.1 1 rfl⟩

/-! ## Theorems: authentication is atomic for the request identity slot -/

/-- C10: starting from a request with an unset identity slot, every failure
of `AuthGuard.canActivate` — missing header, bad scheme, empty token, or any
parse failure — leaves the slot unset, so both claims accessors return null
and a single-field `@User('...')` access returns `undefined`; and the slot is
populated only when the guard succeeded with a fully decoded claims record
for the header's bearer token. -/
theorem authGuard_identity_atomic (now : Int) (request : RequestState)
    (hu : request.user = none) :
    (∀ e, (AuthGuard.canActivate now request).1 = Except.error e →
       UserClaimsService.getUserClaims (AuthGuard.canActivate now request).2 = none ∧
       GetUserClaims (AuthGuard.canActivate now request).2 = none ∧
       userDecoratorFull (AuthGuard.canActivate now request).2 = none ∧
       ∀ k, userDecoratorField k (AuthGuard.canActivate now request).2 = none) ∧
    (∀ u, (AuthGuard.canActivate now request).2.user = some u →
       (AuthGuard.canActivate now request).1 = Except.ok true ∧
       ∃ authHeader, request.authorization = some authHeader ∧
         JwtParserService.parseToken now
           (jsTrim (String.mk (authHeader.data.drop 7))) = Except.ok u) := by
  have main :
      (AuthGuard.canActivate now request).2 = request ∨
      ((AuthGuard.canActivate now request).1 = Except.ok true ∧
        ∃ authHeader c, request.authorization = some authHeader ∧
          JwtParserService.parseToken now
            (jsTrim (String.mk (authHeader.data.drop 7))) = Except.ok c ∧
          (AuthGuard.canActivate now request).2 =
            { request with user := some c }) := by
    cases hauth : request.authorization with
    | none =>
      left
      simp [AuthGuard.canActivate, hauth]
    | some ah =>
      by_cases hempty : ah = ""
      · left
        simp [AuthGuard.canActivate, hauth, hempty]
      · by_cases hbear : startsWithBearer ah.data
        · by_cases htok : jsTrim (String.mk (ah.data.drop 7)) = ""
          · left
            simp [AuthGuard.canActivate, hauth, hempty, hbear, htok]
          · cases hparse : JwtParserService.parseToken now
                (jsTrim (String.mk (ah.data.drop 7))) with
            | error e =>
              left
              simp [AuthGuard.canActivate, hauth, hempty, hbear, htok, hparse]
            | ok c =>
              right
              refine ⟨?_, ah, c, rfl, hparse, ?_⟩ <;>
                simp [AuthGuard.canActivate, hauth, hempty, hbear, htok, hparse]
        · left
          simp [AuthGuard.canActivate, hauth, hempty, hbear]
  constructor
  · intro e he
    rcases main with hsame | ⟨hok, _⟩
    · rw [hsame]
      simp [UserClaimsService.getUserClaims, GetUserClaims, userDecoratorFull,
        userDecoratorField, hu]
    · rw [hok] at he
      exact absurd he (by simp)
  · intro u hu2
    rcases main with hsame | ⟨hok, ah, c, hh, hp, hst⟩
    · rw [hsame, hu] at hu2
      exact absurd hu2 (by simp)
    · rw [hst] at hu2
      simp only [RequestState.mk.injEq] at hu2
      have : c = u := by
        have := hu2
        simp at this
        exact this
      subst this
      exact ⟨hok, ah, hh, hp⟩

/-- Witness for C10 at a concrete request whose bearer token is malformed:
the guard fails and the claims accessor still sees no identity. -/
theorem authGuard_identity_atomic_witness :
    UserClaimsService.getUserClaims
      (AuthGuard.canActivate 0 { authorization := some "Bearer x", user := none }).2 = none :=
  (((authGuard_identity_atomic 0
      { authorization := some "Bearer x", user := none } rfl).1
    (InvalidTokenException "JWT token must have exactly 3 parts separated by dots")
    rfl)).1

/-! ## Agreement of the strict decode model with the runtime decode

Wherever the strict decoders accept an input, the runtime decoders produce
exactly the same bytes and text, so every theorem above whose hypotheses
require strict decode success holds verbatim of the runtime behavior. -/

/-- A character the strict table accepts has the same value in Node's
table. -/
theorem nodeB64Val_of_base64Digit {c : Char} {v : Nat}
    (h : base64Digit c = some v) : nodeB64Val c = some v := by
  unfold base64Digit at h
  unfold nodeB64Val
  split_ifs at h ⊢ <;> simp_all

/-- Node's table skips the padding character. -/
theorem nodeB64Val_eq_pad : nodeB64Val '=' = none := by decide

/-- On every input the strict base64 decoder accepts, Node's forgiving
decoder produces the same bytes. -/
theorem nodeBase64_agrees_on_strict (cs : List Char) :
    ∀ bs, base64DecodeBytes cs = some bs → nodeBase64DecodeBytes cs = bs := by
  induction cs using base64DecodeBytes.induct with
  | case1 =>
    intro bs h
    simp only [base64DecodeBytes, Option.some.injEq] at h
    rw [← h]
    rfl
  | case2 c1 c2 c4 rest v1 v2 h2 h1 hpad =>
    intro bs h
    obtain ⟨hc4, hrest⟩ := hpad
    subst hc4
    subst hrest
    simp only [base64DecodeBytes, h1, h2, if_pos rfl, and_self, if_true,
      Option.some.injEq] at h
    rw [← h]
    simp [nodeBase64DecodeBytes, List.filterMap_cons, nodeB64Val_of_base64Digit h1,
      nodeB64Val_of_base64Digit h2, nodeB64Val_eq_pad, quadBytes]
  | case3 c1 c2 c4 rest v1 v2 h2 h1 hpad =>
    intro bs h
    simp only [base64DecodeBytes, h1, h2, if_pos rfl, if_neg hpad] at h
    simp at h
  | case4 c1 c2 c3 v1 v2 h2 h1 hne v3 h3 =>
    intro bs h
    simp only [base64DecodeBytes, h1, h2, h3, if_neg hne, if_pos rfl, if_true,
      Option.some.injEq] at h
    rw [← h]
    simp [nodeBase64DecodeBytes, List.filterMap_cons, nodeB64Val_of_base64Digit h1,
      nodeB64Val_of_base64Digit h2, nodeB64Val_of_base64Digit h3,
      nodeB64Val_eq_pad, quadBytes]
  | case5 c1 c2 c3 rest v1 v2 h2 h1 hne v3 h3 hrest =>
    intro bs h
    simp only [base64DecodeBytes, h1, h2, h3, if_neg hne, if_pos rfl,
      if_neg hrest] at h
    simp at h
  | case6 c1 c2 c3 c4 rest v1 v2 h2 h1 hne3 v3 h3 hne4 v4 bs0 hrest h4 ih =>
    intro bs h
    simp only [base64DecodeBytes, h1, h2, h3, h4, hrest, if_neg hne3,
      if_neg hne4, Option.some.injEq] at h
    rw [← h]
    simp only [nodeBase64DecodeBytes, List.filterMap_cons,
      nodeB64Val_of_base64Digit h1, nodeB64Val_of_base64Digit h2,
      nodeB64Val_of_base64Digit h3, nodeB64Val_of_base64Digit h4]
    have := ih bs0 hrest
    simp only [nodeBase64DecodeBytes] at this
    simp [quadBytes, this]
  | case7 c1 c2 c3 c4 rest v1 v2 h2 h1 hne3 v3 h3 hne4 hfail ih =>
    intro bs h
    simp only [base64DecodeBytes, h1, h2, h3, if_neg hne3, if_neg hne4] at h
    cases hv4 : base64Digit c4 with
    | none => simp at h
    | some v4 =>
      cases hrest : base64DecodeBytes rest with
      | none => simp at h
      | some bs0 => exact (hfail v4 bs0 hv4 hrest).elim
  | case8 c1 c2 c3 c4 rest v1 v2 h2 h1 hne3 h3 =>
    intro bs h
    simp only [base64DecodeBytes, h1, h2, h3, if_neg hne3] at h
    simp at h
  | case9 c1 c2 c3 c4 rest hfail =>
    intro bs h
    simp only [base64DecodeBytes] at h
    cases hv1 : base64Digit c1 with
    | none => simp at h
    | some v1 =>
      cases hv2 : base64Digit c2 with
      | none => simp at h
      | some v2 => exact (hfail v1 v2 hv1 hv2).elim
  | case10 t hnil hshape =>
    intro bs h
    rcases t with _ | ⟨a, _ | ⟨b, _ | ⟨c, _ | ⟨d, rest⟩⟩⟩⟩
    · exact absurd rfl hnil
    · exact Option.noConfusion h
    · exact Option.noConfusion h
    · exact Option.noConfusion h
    · exact (hshape a b c d rest rfl).elim

/-- Continuation-byte test, in propositional form. -/
theorem isCont_iff {b : Nat} : isCont b = true ↔ 0x80 ≤ b ∧ b < 0xC0 := by
  simp [isCont, Bool.and_eq_true, decide_eq_true_eq]

/-- A second byte the strict 3-byte rule accepts (continuation byte, no
overlong form, no surrogate) lies in the WHATWG lead-specific range. -/
theorem validSecondByte_of_strict3 {b b2 b3 : Nat}
    (hlo : 0xE0 ≤ b) (hhi : b < 0xF0)
    (h2 : isCont b2 = true) (h3 : isCont b3 = true)
    (hnval : ¬((b - 0xE0) * 4096 + (b2 - 0x80) * 64 + (b3 - 0x80) < 0x800 ∨
        (0xD800 ≤ (b - 0xE0) * 4096 + (b2 - 0x80) * 64 + (b3 - 0x80) ∧
         (b - 0xE0) * 4096 + (b2 - 0x80) * 64 + (b3 - 0x80) < 0xE000))) :
    validSecondByte b b2 = true := by
  rw [isCont_iff] at h2 h3
  push_neg at hnval
  unfold validSecondByte
  split_ifs with e0 ed f0 f4
  · subst e0
    simp only [Bool.and_eq_true, decide_eq_true_eq]
    omega
  · subst ed
    simp only [Bool.and_eq_true, decide_eq_true_eq]
    omega
  · exact absurd f0 (by omega)
  · exact absurd f4 (by omega)
  · exact isCont_iff.mpr h2

/-- A second byte the strict 4-byte rule accepts (continuation byte, code
point within U+10000..U+10FFFF) lies in the WHATWG lead-specific range. -/
theorem validSecondByte_of_strict4 {b b2 b3 b4 : Nat}
    (hlo : 0xF0 ≤ b) (hhi : b < 0xF5)
    (h2 : isCont b2 = true) (h3 : isCont b3 = true) (h4 : isCont b4 = true)
    (hnval : ¬((b - 0xF0) * 262144 + (b2 - 0x80) * 4096 + (b3 - 0x80) * 64 +
          (b4 - 0x80) < 0x10000 ∨
        0x10FFFF < (b - 0xF0) * 262144 + (b2 - 0x80) * 4096 + (b3 - 0x80) * 64 +
          (b4 - 0x80))) :
    validSecondByte b b2 = true := by
  rw [isCont_iff] at h2 h3 h4
  push_neg at hnval
  unfold validSecondByte
  split_ifs with e0 ed f0 f4
  · exact absurd e0 (by omega)
  · exact absurd ed (by omega)
  · subst f0
    simp only [Bool.and_eq_true, decide_eq_true_eq]
    omega
  · subst f4
    simp only [Bool.and_eq_true, decide_eq_true_eq]
    omega
  · exact isCont_iff.mpr h2


/-- The replacement decoder never grows the remaining input. -/
theorem nodeUtf8Step_length (b : Nat) (rest : List Nat) :
    (nodeUtf8Step b rest).2.length ≤ rest.length := by
  unfold nodeUtf8Step
  repeat' split
  all_goals simp
  all_goals omega

/-- On every scalar the strict step accepts, the replacement step decodes
the same character and resumes at the same position. -/
theorem nodeUtf8Step_agrees {b : Nat} {rest : List Nat} {c : Char}
    {rest2 : List Nat} (h : utf8Step b rest = some (c, rest2)) :
    nodeUtf8Step b rest = (c, rest2) := by
  unfold utf8Step at h
  unfold nodeUtf8Step
  by_cases h1 : b < 0x80
  · rw [if_pos h1] at h ⊢
    simp only [Option.some.injEq] at h
    exact h
  · rw [if_neg h1] at h ⊢
    by_cases h2 : b < 0xC2
    · rw [if_pos h2] at h
      exact Option.noConfusion h
    · rw [if_neg h2] at h ⊢
      by_cases h3 : b < 0xE0
      · rw [if_pos h3] at h ⊢
        cases rest with
        | nil => exact Option.noConfusion h
        | cons b2 r2 =>
          cases hc2 : isCont b2 with
          | false =>
            have hnc : ¬ isCont b2 = true := by simp [hc2]
            simp only [if_neg hnc] at h
            exact Option.noConfusion h
          | true =>
            simp only [if_pos hc2, Option.some.injEq] at h
            simp only [if_pos hc2]
            exact h
      · rw [if_neg h3] at h ⊢
        by_cases h4 : b < 0xF0
        · rw [if_pos h4] at h ⊢
          cases rest with
          | nil => exact Option.noConfusion h
          | cons b2 r2 =>
            cases r2 with
            | nil => exact Option.noConfusion h
            | cons b3 r3 =>
              cases hc23 : (isCont b2 && isCont b3) with
              | false =>
                have hnc : ¬ (isCont b2 && isCont b3) = true := by simp [hc23]
                simp only [if_neg hnc] at h
                exact Option.noConfusion h
              | true =>
                obtain ⟨hc2, hc3⟩ := Bool.and_eq_true_iff.mp hc23
                simp only [if_pos hc23] at h
                split at h
                · exact Option.noConfusion h
                · rename_i hval
                  simp only [Option.some.injEq] at h
                  have hvs : validSecondByte b b2 = true := by
                    apply validSecondByte_of_strict3 (by omega) h4 hc2 hc3
                    simpa using hval
                  simp only [if_pos hvs, if_pos hc3]
                  exact h
        · rw [if_neg h4] at h ⊢
          by_cases h5 : b < 0xF5
          · rw [if_pos h5] at h ⊢
            cases rest with
            | nil => exact Option.noConfusion h
            | cons b2 r2 =>
              cases r2 with
              | nil => exact Option.noConfusion h
              | cons b3 r3 =>
                cases r3 with
                | nil => exact Option.noConfusion h
                | cons b4 r4 =>
                  cases hc234 : (isCont b2 && isCont b3 && isCont b4) with
                  | false =>
                    have hnc : ¬ (isCont b2 && isCont b3 && isCont b4) = true := by
                      simp [hc234]
                    simp only [if_neg hnc] at h
                    exact Option.noConfusion h
                  | true =>
                    obtain ⟨hc23, hc4⟩ := Bool.and_eq_true_iff.mp hc234
                    obtain ⟨hc2, hc3⟩ := Bool.and_eq_true_iff.mp hc23
                    simp only [if_pos hc234] at h
                    split at h
                    · exact Option.noConfusion h
                    · rename_i hval
                      simp only [Option.some.injEq] at h
                      have hvs : validSecondByte b b2 = true := by
                        apply validSecondByte_of_strict4 (by omega) h5 hc2 hc3 hc4
                        simpa using hval
                      simp only [if_pos hvs, if_pos hc3, if_pos hc4]
                      exact h
          · rw [if_neg h5] at h
            exact Option.noConfusion h

/-- On every byte sequence the strict UTF-8 decoder accepts, the total
replacement decoder (given enough fuel on both sides) produces the same
characters. -/
theorem nodeUtf8Go_agrees_on_strict :
    ∀ (fuel fuel2 : Nat) (bs : List Nat) (cs : List Char),
      bs.length ≤ fuel → bs.length ≤ fuel2 →
      utf8DecodeLoop fuel bs = some cs → nodeUtf8DecodeGo fuel2 bs = cs := by
  intro fuel
  induction fuel with
  | zero =>
    intro fuel2 bs cs hlen hlen2 h
    cases bs with
    | nil =>
      simp only [utf8DecodeLoop, Option.some.injEq] at h
      rw [← h]
      cases fuel2 <;> rfl
    | cons b rest => simp at hlen
  | succ fuel ih =>
    intro fuel2 bs cs hlen hlen2 h
    cases bs with
    | nil =>
      simp only [utf8DecodeLoop, Option.some.injEq] at h
      rw [← h]
      cases fuel2 <;> rfl
    | cons b rest =>
      cases fuel2 with
      | zero => simp at hlen2
      | succ f2 =>
        simp only [utf8DecodeLoop] at h
        cases hstep : utf8Step b rest with
        | none => rw [hstep] at h; exact Option.noConfusion h
        | some pr =>
          obtain ⟨c, rest2⟩ := pr
          rw [hstep] at h
          have h : (match utf8DecodeLoop fuel rest2 with
              | some cs => some (c :: cs)
              | none => none) = some cs := h
          cases hrec : utf8DecodeLoop fuel rest2 with
          | none => rw [hrec] at h; exact Option.noConfusion h
          | some cs0 =>
            rw [hrec] at h
            simp only [Option.some.injEq] at h
            rw [← h]
            have hlr : rest2.length ≤ rest.length := by
              have hstep2 := nodeUtf8Step_length b rest
              rw [nodeUtf8Step_agrees hstep] at hstep2
              exact hstep2
            have hl1 : rest2.length ≤ fuel := by
              simp only [List.length_cons] at hlen
              omega
            have hl2 : rest2.length ≤ f2 := by
              simp only [List.length_cons] at hlen2
              omega
            simp only [nodeUtf8DecodeGo, nodeUtf8Step_agrees hstep]
            rw [ih f2 rest2 cs0 hl1 hl2 hrec]

/-- On every byte sequence the strict UTF-8 decoder accepts, the runtime
conversion produces the same characters. -/
theorem nodeUtf8_agrees_on_strict {bs : List Nat} {cs : List Char}
    (h : utf8Decode bs = some cs) : nodeUtf8Decode bs = cs :=
  nodeUtf8Go_agrees_on_strict bs.length bs.length bs cs le_rfl le_rfl h

/-- On every payload the strict decode accepts, the runtime decode yields
exactly the same text — so the theorems conditioned on strict decode success
describe the runtime behavior verbatim. -/
theorem nodeDecode_agrees_on_strict {payload txt : String}
    (h : decodeBase64UrlUtf8 payload = some txt) :
    nodeDecodeBase64UrlUtf8 payload = txt := by
  unfold decodeBase64UrlUtf8 at h
  cases hb : base64DecodeBytes (padBase64 (toStdBase64 payload)).data with
  | none => rw [hb] at h; exact Option.noConfusion h
  | some bs =>
    rw [hb] at h
    cases hd : utf8Decode bs with
    | none => simp [utf8ToString, hd] at h
    | some cs =>
      simp only [utf8ToString, Option.some_bind, hd] at h
      unfold nodeDecodeBase64UrlUtf8 nodeUtf8String
      rw [nodeBase64_agrees_on_strict _ bs hb, nodeUtf8_agrees_on_strict hd]
      simpa using h

/-- Whenever the strict decode of a 3-segment token's payload succeeds, the
strict-model parser and the runtime parser return the same result. -/
theorem parseToken_agrees_runtime (now : Int) (token hdr payload sig txt : String)
    (hsplit : tokenParts token = [hdr, payload, sig])
    (hdec : decodeBase64UrlUtf8 payload = some txt) :
    JwtParserService.parseToken now token =
      JwtParserService.parseTokenRuntime now token := by
  simp only [JwtParserService.parseToken, JwtParserService.parseTokenRuntime,
    hsplit, hdec, nodeDecode_agrees_on_strict hdec]

/-- Any failure of the payload validator is one of its four own messages:
bad JSON, not an object, missing `sub`, missing `email`. -/
theorem parsePayload_error_messages (now : Int) (d : String) (e : AuthError)
    (h : parsePayload now d = Except.error e) :
    e = InvalidTokenException "JWT payload is not valid JSON" ∨
    e = InvalidTokenException "JWT payload must be an object" ∨
    e = InvalidTokenException "JWT token must contain a valid \"sub\" claim" ∨
    e = InvalidTokenException "JWT token must contain a valid \"email\" claim" := by
  simp only [parsePayload] at h
  repeat' split at h
  all_goals simp_all

/-- The payload validator never produces the encoding failure. -/
theorem parsePayload_ne_encodingError (now : Int) (d : String) :
    parsePayload now d ≠
      Except.error (InvalidTokenException "JWT payload is not valid base64url encoding") := by
  intro h
  rcases parsePayload_error_messages now d _ h with hc | hc | hc | hc <;>
    simp [InvalidTokenException] at hc

/-- No input at all makes the runtime parser fail with the encoding reason:
the `catch` in the source is unreachable. -/
theorem parseTokenRuntime_ne_encodingError (now : Int) (token : String) :
    JwtParserService.parseTokenRuntime now token ≠
      Except.error (InvalidTokenException "JWT payload is not valid base64url encoding") := by
  unfold JwtParserService.parseTokenRuntime
  split
  · exact parsePayload_ne_encodingError now _
  · intro h
    simp [InvalidTokenException] at h

/-- Counterexample to C9 as stated: the claimed erroring input does not
exist.  `Buffer.from` and `toString('utf-8')` are total, so the conversion
of the payload segment never errors; the token `a.!.b` — whose payload `!`
is not base64 at all — decodes to the empty string and fails at the
JSON-parsing step with the bad-JSON reason, and no token whatsoever produces
the TokenInvalid encoding reason. -/
theorem parseToken_encoding_error_unreachable :
    nodeDecodeBase64UrlUtf8 "!" = "" ∧
    JwtParserService.parseTokenRuntime 0 "a.!.b" =
      Except.error (InvalidTokenException "JWT payload is not valid JSON") ∧
    ¬ ∃ (now : Int) (token : String),
        JwtParserService.parseTokenRuntime now token =
          Except.error (InvalidTokenException "JWT payload is not valid base64url encoding") := by
  refine ⟨rfl, rfl, ?_⟩
  rintro ⟨now, token, h⟩
  exact parseTokenRuntime_ne_encodingError now token h

/-- C9 (amended): for every 3-segment token the payload segment is converted
by exactly the described steps — URL-safe alphabet mapped to the standard
one, `=`-padding to a multiple of 4 characters, base64 decoding to bytes,
UTF-8 interpretation — performed by the runtime's total primitives
(characters outside the base64 alphabet are skipped; invalid UTF-8 is
replaced, never erroring), and the resulting text is handed to the payload
validator.  This decoding step cannot error, so no input fails with the
TokenInvalid encoding reason: an undecodable payload surfaces as a JSON
failure instead. -/
theorem parseTokenRuntime_base64url_stage :
    (∀ payload : String,
       nodeDecodeBase64UrlUtf8 payload =
         nodeUtf8String (nodeBase64DecodeBytes (padBase64 (toStdBase64 payload)).data)) ∧
    (∀ (now : Int) (token hdr payload sig : String),
       tokenParts token = [hdr, payload, sig] →
       JwtParserService.parseTokenRuntime now token =
         parsePayload now (nodeDecodeBase64UrlUtf8 payload)) ∧
    (∀ (now : Int) (token : String),
       JwtParserService.parseTokenRuntime now token ≠
         Except.error (InvalidTokenException "JWT payload is not valid base64url encoding")) := by
  refine ⟨fun _ => rfl, ?_, parseTokenRuntime_ne_encodingError⟩
  intro now token hdr payload sig hsplit
  simp only [JwtParserService.parseTokenRuntime, hsplit]

/-- Witness for the amended C9 at the concrete token `a.!.b`: the runtime
parse is the payload validation of the (empty) decoded text, which fails
with the bad-JSON reason rather than the encoding reason. -/
theorem parseTokenRuntime_base64url_stage_witness :
    JwtParserService.parseTokenRuntime 7 "a.!.b" =
      parsePayload 7 (nodeDecodeBase64UrlUtf8 "!") ∧
    JwtParserService.parseTokenRuntime 7 "a.!.b" ≠
      Except.error (InvalidTokenException "JWT payload is not valid base64url encoding") :=
  ⟨parseTokenRuntime_base64url_stage.2.1 7 "a.!.b" "a" "!" "b" rfl,
   parseTokenRuntime_base64url_stage.2.2 7 "a.!.b"⟩
